import Mathlib

/-! Shallow embedding of the agent-routing and call-session core of the
InspireWorks-Plivo IVR system (src/models/__init__.py, src/services/agent_heap.py,
src/services/call_manager.py, src/app.py).

Python floats are modelled as rationals, datetimes as rational timestamps, the
SQLite-backed `agents` table as a list of records with primary-key lookup, the
two `heapq` heaps as lists kept sorted by the Python tuple order (so that the
head is always the minimum, exactly what `heapq.heappop` returns), and the
in-memory dictionaries (`busy_agents`, `active_calls`) as association lists
with unique keys. -/

/-- A priority score: a finite rational, or the `float('inf')` returned for
unavailable agents. -/
inductive PScore where
  | fin (q : ℚ) : PScore
  | inf : PScore
deriving DecidableEq, Repr

/-- Strict comparison of priority scores, as Python float `<`: finite scores
compare as rationals and every finite score is below infinity. -/
def PScore.ltB : PScore → PScore → Bool
  | .fin q, .fin r => if q < r then true else false
  | .fin _, .inf => true
  | .inf, _ => false

/-- One row of the `agents` table (class `Agent`, src/models/__init__.py). -/
structure Agent where
  id : ℕ
  phone_number : String
  language : String
  is_available : Bool
  total_calls : ℕ
  avg_call_duration : ℚ
  recent_call_count : ℕ
  last_call_time : Option ℚ
  total_feedback_score : ℚ
  feedback_count : ℕ
deriving DecidableEq, Repr

/-- `Agent.calculate_priority_score` (src/models/__init__.py): infinity when the
agent is unavailable, otherwise the recent-call penalty plus the average
duration in minutes, minus the mean-rating bonus when any feedback exists. -/
def Agent.calculate_priority_score (a : Agent) : PScore :=
  if !a.is_available then .inf
  else
    .fin (0 + (a.recent_call_count : ℚ) * 10 + a.avg_call_duration / 60 -
      (if 0 < a.feedback_count then
        a.total_feedback_score / (a.feedback_count : ℚ) * 5
      else 0))

/-- `Agent.update_metrics` (src/models/__init__.py): fold a completed call's
duration into the running average, increment the lifetime and rolling counters,
and stamp the last call time. -/
def Agent.update_metrics (a : Agent) (call_duration now : ℚ) : Agent :=
  { a with
    total_calls := a.total_calls + 1,
    avg_call_duration :=
      (a.avg_call_duration * (a.total_calls : ℚ) + call_duration) / ((a.total_calls : ℚ) + 1),
    recent_call_count := a.recent_call_count + 1,
    last_call_time := some now }

/-- The agent record as `release_agent` commits it: metrics folded in and
`is_available` set back to true. -/
def releasedAgent (a : Agent) (call_duration now : ℚ) : Agent :=
  { a.update_metrics call_duration now with is_available := true }

/-- A heap entry: the `(priority, agent.id, agent.phone_number)` tuple pushed by
`initialize_heaps` and `release_agent`. -/
structure Entry where
  score : PScore
  agent_id : ℕ
  phone : String
deriving DecidableEq, Repr

/-- The entry built from an agent's current state. -/
def agentEntry (a : Agent) : Entry :=
  ⟨a.calculate_priority_score, a.id, a.phone_number⟩

/-- Lexicographic strict comparison of strings by code point, as Python string
`<`. -/
def strLtB : List Char → List Char → Bool
  | [], [] => false
  | [], _ :: _ => true
  | _ :: _, [] => false
  | a :: as, b :: bs =>
    if a.toNat < b.toNat then true
    else if b.toNat < a.toNat then false
    else strLtB as bs

/-- Python tuple `<=` on heap entries: by score, then agent id, then phone. -/
def entryLe (e1 e2 : Entry) : Bool :=
  if PScore.ltB e1.score e2.score then true
  else if PScore.ltB e2.score e1.score then false
  else if e1.agent_id < e2.agent_id then true
  else if e2.agent_id < e1.agent_id then false
  else !(strLtB e2.phone.data e1.phone.data)

/-- Sorted-list model of `heapq.heappush`: insert keeping the list ordered, so
the head is always the minimum entry. -/
def insertEntry (e : Entry) : List Entry → List Entry
  | [] => [e]
  | x :: xs => if entryLe x e then x :: insertEntry e xs else e :: x :: xs

/-- The mutable state of `AgentHeapManager` (src/services/agent_heap.py)
together with the `agents` table it reads and writes: the two per-language
heaps, the busy map `{agent_id: call_uuid}`, and the registry. -/
structure SysState where
  agents : List Agent
  english_heap : List Entry
  spanish_heap : List Entry
  busy_agents : List (ℕ × String)
deriving DecidableEq, Repr

/-- `Agent.query.get(agent_id)`: primary-key lookup in the registry. -/
def findAgentById : List Agent → ℕ → Option Agent
  | [], _ => none
  | a :: rest, k => if a.id == k then some a else findAgentById rest k

/-- Commit a mutation of the registry row with the given primary key. -/
def updFirst : List Agent → ℕ → (Agent → Agent) → List Agent
  | [], _, _ => []
  | a :: rest, k, f => if a.id == k then f a :: rest else a :: updFirst rest k f

/-- `agent_id in self.busy_agents`: key membership in the busy map. -/
def busyContains (busy : List (ℕ × String)) (k : ℕ) : Bool :=
  busy.any (fun p => p.1 == k)

/-- `del self.busy_agents[agent_id]` guarded by membership: drop the key when
present, otherwise leave the map alone. -/
def busyDel : List (ℕ × String) → ℕ → List (ℕ × String)
  | [], _ => []
  | p :: rest, k => if p.1 == k then rest else p :: busyDel rest k

/-- `self.busy_agents[agent_id] = call_uuid`: insert or overwrite a key. -/
def busySet : List (ℕ × String) → ℕ → String → List (ℕ × String)
  | [], k, v => [(k, v)]
  | p :: rest, k, v => if p.1 == k then (k, v) :: rest else p :: busySet rest k v

/-- One language's share of `initialize_heaps`: push every available agent of
that language, in table order, onto a fresh heap. -/
def buildHeap (lang : String) (agents : List Agent) : List Entry :=
  agents.foldl
    (fun h a =>
      if a.is_available && (a.language == lang) then insertEntry (agentEntry a) h
      else h) []

/-- `AgentHeapManager.initialize_heaps`: discard both heaps and rebuild them
from the available agents currently in the registry. The busy map is not
touched. -/
def initialize_heaps (s : SysState) : SysState :=
  { s with
    english_heap := buildHeap "english" s.agents,
    spanish_heap := buildHeap "spanish" s.agents }

/-- The pop loop of `get_best_agent`: pop entries until one refers to an agent
that is still available and not busy; stale entries are dropped, never
reinserted. Returns the winning `(agent_id, phone_number)` pair, if any, and
what remains of the heap. -/
def selectLoop (agents : List Agent) (busy : List (ℕ × String)) :
    List Entry → Option (ℕ × String) × List Entry
  | [] => (none, [])
  | e :: rest =>
    match findAgentById agents e.agent_id with
    | some a =>
      if a.is_available && !(busyContains busy e.agent_id) then
        (some (e.agent_id, e.phone), rest)
      else selectLoop agents busy rest
    | none => selectLoop agents busy rest

/-- `AgentHeapManager.get_best_agent`: choose the heap (any language other than
'english' selects the spanish heap, as in the source's conditional), run the
pop loop, and on success persist the winner's unavailability. -/
def get_best_agent (s : SysState) (language : String) :
    Option (ℕ × String) × SysState :=
  let heap := if language == "english" then s.english_heap else s.spanish_heap
  match selectLoop s.agents s.busy_agents heap with
  | (some (k, ph), rest) =>
    let s1 := if language == "english" then { s with english_heap := rest }
              else { s with spanish_heap := rest }
    (some (k, ph),
     { s1 with agents := updFirst s1.agents k (fun a => { a with is_available := false }) })
  | (none, rest) =>
    (none, if language == "english" then { s with english_heap := rest }
           else { s with spanish_heap := rest })

/-- `AgentHeapManager.mark_agent_busy`: record the call in the busy map and
persist the agent as unavailable when its row exists. -/
def mark_agent_busy (s : SysState) (agent_id : ℕ) (call_uuid : String) : SysState :=
  { s with
    busy_agents := busySet s.busy_agents agent_id call_uuid,
    agents := updFirst s.agents agent_id (fun a => { a with is_available := false }) }

/-- `AgentHeapManager.release_agent`: drop the agent from the busy map, and when
its registry row exists, fold in the call duration, mark it available, and push
a freshly scored entry onto its language's heap (none for other languages). -/
def release_agent (s : SysState) (agent_id : ℕ) (call_duration now : ℚ) : SysState :=
  let busy1 := busyDel s.busy_agents agent_id
  match findAgentById s.agents agent_id with
  | none => { s with busy_agents := busy1 }
  | some a =>
    let a1 := releasedAgent a call_duration now
    let agents1 := updFirst s.agents agent_id (fun _ => a1)
    if a1.language == "english" then
      { s with busy_agents := busy1, agents := agents1,
               english_heap := insertEntry (agentEntry a1) s.english_heap }
    else if a1.language == "spanish" then
      { s with busy_agents := busy1, agents := agents1,
               spanish_heap := insertEntry (agentEntry a1) s.spanish_heap }
    else { s with busy_agents := busy1, agents := agents1 }

/-- The row mutation performed by `update_agent_feedback`: add the rating to
`total_feedback_score` and bump `feedback_count`. -/
def feedbackUpd (rating : ℕ) (a : Agent) : Agent :=
  { a with
    total_feedback_score := a.total_feedback_score + (rating : ℚ),
    feedback_count := a.feedback_count + 1 }

/-- `AgentHeapManager.update_agent_feedback`: add the rating to the feedback
accumulators of the agent's row when it exists. -/
def update_agent_feedback (s : SysState) (agent_id : ℕ) (rating : ℕ) : SysState :=
  { s with agents := updFirst s.agents agent_id (feedbackUpd rating) }

/-- `AgentHeapManager.reset_recent_call_counts`: zero every rolling counter and
rebuild both heaps. -/
def reset_recent_call_counts (s : SysState) : SysState :=
  initialize_heaps
    { s with agents := s.agents.map (fun a => { a with recent_call_count := 0 }) }

/-- One entry of the in-memory `active_calls` map (src/services/call_manager.py). -/
structure CallSession where
  customer_phone : String
  language : Option String
  agent_id : Option ℕ
  start_time : ℚ
deriving DecidableEq, Repr

/-- The `active_calls` dictionary, keyed by call UUID. -/
abbrev Store := List (String × CallSession)

/-- `active_calls.get(call_uuid)`. -/
def storeGet : Store → String → Option CallSession
  | [], _ => none
  | p :: rest, k => if p.1 == k then some p.2 else storeGet rest k

/-- `active_calls[call_uuid] = value`: insert or overwrite. -/
def storeSet : Store → String → CallSession → Store
  | [], k, v => [(k, v)]
  | p :: rest, k, v => if p.1 == k then (k, v) :: rest else p :: storeSet rest k v

/-- `del active_calls[call_uuid]`. -/
def storeDel : Store → String → Store
  | [], _ => []
  | p :: rest, k => if p.1 == k then rest else p :: storeDel rest k

/-- Mutate the session stored under a key, when present. -/
def storeUpdFirst : Store → String → (CallSession → CallSession) → Store
  | [], _, _ => []
  | p :: rest, k, f => if p.1 == k then (p.1, f p.2) :: rest else p :: storeUpdFirst rest k f

/-- `create_call_session` (src/services/call_manager.py): unconditionally store
a fresh session with null language and agent under the call UUID. -/
def create_call_session (st : Store) (call_uuid customer_phone : String) (now : ℚ) : Store :=
  storeSet st call_uuid ⟨customer_phone, none, none, now⟩

/-- `update_call_language`: set the session's language when the session exists;
otherwise do nothing. -/
def update_call_language (st : Store) (call_uuid language : String) : Store :=
  storeUpdFirst st call_uuid (fun s => { s with language := some language })

/-- `update_call_agent`: set the session's agent when the session exists;
otherwise do nothing. -/
def update_call_agent (st : Store) (call_uuid : String) (agent_id : ℕ) : Store :=
  storeUpdFirst st call_uuid (fun s => { s with agent_id := some agent_id })

/-- `get_call_session`. -/
def get_call_session (st : Store) (call_uuid : String) : Option CallSession :=
  storeGet st call_uuid

/-- `end_call_session`: when the session exists, return it together with
`now - start_time` and remove it; otherwise return `(None, 0)` and leave the
store alone. -/
def end_call_session (st : Store) (call_uuid : String) (now : ℚ) :
    Option CallSession × ℚ × Store :=
  match storeGet st call_uuid with
  | some s => (some s, now - s.start_time, storeDel st call_uuid)
  | none => (none, 0, st)

/-- One row of the `customers` table (src/models/__init__.py). -/
structure Customer where
  phone_number : String
  total_calls : ℕ
  avg_call_duration : ℚ
  last_call_time : Option ℚ
  last_agent_connected : Option String
  last_feedback_rating : Option ℕ
  preferred_language : Option String
deriving DecidableEq, Repr

/-- `Customer.update_metrics` (src/models/__init__.py). -/
def Customer.update_metrics (c : Customer) (call_duration now : ℚ) : Customer :=
  { c with
    total_calls := c.total_calls + 1,
    avg_call_duration :=
      (c.avg_call_duration * (c.total_calls : ℚ) + call_duration) / ((c.total_calls : ℚ) + 1),
    last_call_time := some now }

/-- One row of the `call_logs` table (src/models/__init__.py). -/
structure CallLog where
  id : ℕ
  call_uuid : String
  customer_phone : String
  agent_id : Option ℕ
  language_selected : Option String
  start_time : ℚ
  end_time : Option ℚ
  duration : Option ℚ
  status : Option String
deriving DecidableEq, Repr

/-- One row of the `feedbacks` table (src/models/__init__.py). -/
structure FeedbackRow where
  call_log_id : ℕ
  customer_phone : String
  agent_id : ℕ
  rating : ℕ
  call_duration : ℚ
deriving DecidableEq, Repr

/-- The state touched by the `/plivo/callback` handler: the session store, the
dispatcher with the agents table, and the customer, call-log and feedback
tables. -/
structure AppState where
  calls : Store
  sys : SysState
  customers : List Customer
  call_logs : List CallLog
  feedbacks : List FeedbackRow
deriving DecidableEq, Repr

/-- `CallLog.query.filter_by(call_uuid=...).first()`. -/
def findLog (logs : List CallLog) (call_uuid : String) : Option CallLog :=
  logs.find? (fun l => l.call_uuid == call_uuid)

/-- Commit a mutation of the call-log row with the given UUID, when present. -/
def updLogFirst : List CallLog → String → (CallLog → CallLog) → List CallLog
  | [], _, _ => []
  | l :: rest, k, f => if l.call_uuid == k then f l :: rest else l :: updLogFirst rest k f

/-- `Customer.query.get(phone)`. -/
def findCustomer (cs : List Customer) (phone : String) : Option Customer :=
  cs.find? (fun c => c.phone_number == phone)

/-- Commit a mutation of the customer row with the given phone, when present. -/
def updCustomerFirst : List Customer → String → (Customer → Customer) → List Customer
  | [], _, _ => []
  | c :: rest, k, f => if c.phone_number == k then f c :: rest else c :: updCustomerFirst rest k f

/-- `feedback_digit and feedback_digit in ['1', '2', '3', '4']` followed by
`int(feedback_digit)`. -/
def parseRating : Option String → Option ℕ
  | some "1" => some 1
  | some "2" => some 2
  | some "3" => some 3
  | some "4" => some 4
  | _ => none

/-- Python truthiness of `session['agent_id']`: present and nonzero. -/
def agentTruthy : Option ℕ → Bool
  | some k => k != 0
  | none => false

/-- The customer-table update step of `plivo_callback`: `update_metrics` plus,
when an agent is recorded, `last_agent_connected` from the agent's row. Returns
`none` where the Python dereferences a missing agent row and would raise. -/
def callbackCustomers (st : AppState) (customer_phone : String)
    (agent_id : Option ℕ) (duration now : ℚ) : Option (List Customer) :=
  match findCustomer st.customers customer_phone with
  | none => some st.customers
  | some _ =>
    match agent_id with
    | some aid =>
      if aid != 0 then
        match findAgentById st.sys.agents aid with
        | none => none
        | some ag =>
          some (updCustomerFirst st.customers customer_phone (fun c =>
            { c.update_metrics duration now with
              last_agent_connected := some ag.phone_number }))
      else
        some (updCustomerFirst st.customers customer_phone (fun c =>
          c.update_metrics duration now))
    | none =>
      some (updCustomerFirst st.customers customer_phone (fun c =>
        c.update_metrics duration now))

/-- The `/plivo/callback` handler (src/app.py): end the session and, when it
existed, complete the call log, update the customer, store and apply feedback
when a valid digit, a call log and an agent are all present, and finally
release the agent. Returns `none` where the Python code would raise. -/
def plivo_callback (st : AppState) (call_uuid : String)
    (feedback_digit : Option String) (now : ℚ) : Option AppState :=
  match end_call_session st.calls call_uuid now with
  | (none, _, calls1) => some { st with calls := calls1 }
  | (some session, duration, calls1) =>
    let customer_phone := session.customer_phone
    let agent_id := session.agent_id
    let log0 := findLog st.call_logs call_uuid
    let logs1 := updLogFirst st.call_logs call_uuid (fun l =>
      { l with end_time := some now, duration := some duration, status := some "completed" })
    match callbackCustomers st customer_phone agent_id duration now with
    | none => none
    | some customers1 =>
      match parseRating feedback_digit, log0, agent_id with
      | some rating, some lg, some aid =>
        if aid != 0 then
          some { calls := calls1,
                 sys := release_agent (update_agent_feedback st.sys aid rating) aid duration now,
                 customers := updCustomerFirst customers1 customer_phone (fun c =>
                   { c with last_feedback_rating := some rating }),
                 call_logs := logs1,
                 feedbacks := st.feedbacks ++ [⟨lg.id, customer_phone, aid, rating, duration⟩] }
        else
          some { calls := calls1, sys := st.sys, customers := customers1,
                 call_logs := logs1, feedbacks := st.feedbacks }
      | _, _, _ =>
        match agent_id with
        | some aid =>
          if aid != 0 then
            some { calls := calls1, sys := release_agent st.sys aid duration now,
                   customers := customers1, call_logs := logs1, feedbacks := st.feedbacks }
          else
            some { calls := calls1, sys := st.sys, customers := customers1,
                   call_logs := logs1, feedbacks := st.feedbacks }
        | none =>
          some { calls := calls1, sys := st.sys, customers := customers1,
                 call_logs := logs1, feedbacks := st.feedbacks }

/-- Modelled from the spec: `setLanguage(callId, language)` is "valid only while
the session exists; fails with a 'missing session' condition otherwise". The
failure is the `none` outcome, which the source's `update_call_language` has no
counterpart for. -/
def setLanguage_spec (st : Store) (call_uuid language : String) : Option Store :=
  match storeGet st call_uuid with
  | some _ =>
    some (storeUpdFirst st call_uuid (fun s => { s with language := some language }))
  | none => none

/-- A dispatcher operation, for stating invariants over whole interaction
traces. -/
inductive Op where
  | rebuild : Op
  | select (language : String) : Op
  | markBusy (agent_id : ℕ) (call_uuid : String) : Op
  | release (agent_id : ℕ) (call_duration now : ℚ) : Op
  | feedback (agent_id : ℕ) (rating : ℕ) : Op
  | resetCounts : Op

/-- Run one dispatcher operation on the shared state. -/
def applyOp (s : SysState) : Op → SysState
  | .rebuild => initialize_heaps s
  | .select language => (get_best_agent s language).2
  | .markBusy k u => mark_agent_busy s k u
  | .release k d now => release_agent s k d now
  | .feedback k r => update_agent_feedback s k r
  | .resetCounts => reset_recent_call_counts s

/-- Run a sequence of dispatcher operations. -/
def applyOps (s : SysState) (ops : List Op) : SysState :=
  ops.foldl applyOp s

/-- A fresh available English agent with no feedback, used to instantiate the
scenario claims. -/
def sampleAgentE : Agent := ⟨1, "e1", "english", true, 2, 30, 1, none, 0, 0⟩

/-- A registry holding only `sampleAgentE`. -/
def sampleSysE : SysState := ⟨[sampleAgentE], [], [], []⟩

/-- A single available Spanish agent. -/
def frAgent : Agent := ⟨1, "spPhone", "spanish", true, 0, 0, 0, none, 0, 0⟩

/-- Heaps built over the lone Spanish agent. -/
def frState : SysState := initialize_heaps ⟨[frAgent], [], [], []⟩

/-- An available English agent with the given id, phone and rolling count, all
other metrics identical. -/
def tieAgent (k : ℕ) (ph : String) (rc : ℕ) : Agent :=
  ⟨k, ph, "english", true, 0, 0, rc, none, 0, 0⟩

/-- Heaps built over three English agents with rolling counts 0, 5 and 0. -/
def tieState : SysState :=
  initialize_heaps ⟨[tieAgent 1 "e1" 0, tieAgent 2 "e2" 5, tieAgent 3 "e3" 0], [], [], []⟩

/-- A dispatcher state whose english heap holds one entry for an available,
non-busy agent. -/
def sampleSelState : SysState :=
  ⟨[⟨1, "e1", "english", true, 0, 0, 0, none, 0, 0⟩],
   [⟨PScore.fin 0, 1, "e1"⟩], [], []⟩

/-- `sampleSelState` after its entry is consumed and the agent reserved. -/
def sampleSelStateDone : SysState :=
  ⟨[⟨1, "e1", "english", false, 0, 0, 0, none, 0, 0⟩], [], [], []⟩

/-- A French-language agent: member of no partition. -/
def frenchAgent : Agent := ⟨7, "f1", "french", true, 0, 0, 0, none, 0, 0⟩

/-- A registry holding the French agent alongside an English one. -/
def frenchSys : SysState :=
  ⟨[frenchAgent, ⟨1, "e1", "english", true, 0, 0, 0, none, 0, 0⟩], [], [], []⟩

/-- An app state holding one live session under UUID `"c1"`. -/
def sampleApp : AppState :=
  ⟨[("c1", ⟨"p1", some "english", some 1, 4⟩)], ⟨[], [], [], []⟩, [], [], []⟩

/-- An app state with no live sessions. -/
def sampleAppEmpty : AppState := ⟨[], ⟨[], [], [], []⟩, [], [], []⟩

/-! Helper lemmas about the association-list stores and the registry. -/

theorem storeGet_storeSet_self (st : Store) (k : String) (v : CallSession) :
    storeGet (storeSet st k v) k = some v := by
  induction st with
  | nil => simp [storeSet, storeGet]
  | cons p rest ih =>
    by_cases h : p.1 = k
    · simp [storeSet, storeGet, h]
    · simp [storeSet, storeGet, h, ih]

theorem storeGet_storeSet_ne (st : Store) (k k2 : String) (v : CallSession)
    (h : k2 ≠ k) : storeGet (storeSet st k v) k2 = storeGet st k2 := by
  induction st with
  | nil => simp [storeSet, storeGet, Ne.symm h]
  | cons p rest ih =>
    by_cases hp : p.1 = k
    · simp [storeSet, storeGet, hp, Ne.symm h]
    · simp [storeSet, storeGet, hp, ih]

theorem storeUpdFirst_missing (st : Store) (k : String) (f : CallSession → CallSession)
    (h : storeGet st k = none) : storeUpdFirst st k f = st := by
  induction st with
  | nil => simp [storeUpdFirst]
  | cons p rest ih =>
    by_cases hp : p.1 = k
    · simp [storeGet, hp] at h
    · simp [storeGet, hp] at h
      simp [storeUpdFirst, hp, ih h]

theorem storeGet_storeUpdFirst_self (st : Store) (k : String)
    (f : CallSession → CallSession) (s : CallSession)
    (h : storeGet st k = some s) :
    storeGet (storeUpdFirst st k f) k = some (f s) := by
  induction st with
  | nil => simp [storeGet] at h
  | cons p rest ih =>
    by_cases hp : p.1 = k
    · simp [storeGet, hp] at h
      simp [storeUpdFirst, storeGet, hp, h]
    · simp [storeGet, hp] at h
      simp [storeUpdFirst, storeGet, hp, ih h]

theorem storeGet_storeUpdFirst_ne (st : Store) (k k2 : String)
    (f : CallSession → CallSession) (h : k2 ≠ k) :
    storeGet (storeUpdFirst st k f) k2 = storeGet st k2 := by
  induction st with
  | nil => simp [storeUpdFirst]
  | cons p rest ih =>
    by_cases hp : p.1 = k
    · simp [storeUpdFirst, storeGet, hp, Ne.symm h]
    · simp [storeUpdFirst, storeGet, hp, ih]

theorem storeGet_eq_none_of_not_mem (st : Store) (k : String)
    (h : k ∉ st.map Prod.fst) : storeGet st k = none := by
  induction st with
  | nil => simp [storeGet]
  | cons p rest ih =>
    simp only [List.map_cons, List.mem_cons, not_or] at h
    simp [storeGet, Ne.symm h.1, ih h.2]

theorem storeGet_storeDel_self (st : Store) (k : String)
    (hn : (st.map Prod.fst).Nodup) : storeGet (storeDel st k) k = none := by
  induction st with
  | nil => simp [storeDel, storeGet]
  | cons p rest ih =>
    simp only [List.map_cons, List.nodup_cons] at hn
    by_cases hp : p.1 = k
    · simp only [storeDel, hp, beq_self_eq_true, if_true]
      exact storeGet_eq_none_of_not_mem rest k (hp ▸ hn.1)
    · simp [storeDel, storeGet, hp, ih hn.2]

theorem findAgentById_updFirst_self (agents : List Agent) (k : ℕ)
    (f : Agent → Agent) (hf : ∀ a, (f a).id = a.id) :
    findAgentById (updFirst agents k f) k = (findAgentById agents k).map f := by
  induction agents with
  | nil => simp [findAgentById, updFirst]
  | cons a rest ih =>
    by_cases hp : a.id = k
    · simp [updFirst, findAgentById, hp, hf]
    · simp [updFirst, findAgentById, hp, ih]

theorem findAgentById_updFirst_ne (agents : List Agent) (k k2 : ℕ)
    (f : Agent → Agent) (hf : ∀ a, (f a).id = a.id) (h : k2 ≠ k) :
    findAgentById (updFirst agents k f) k2 = findAgentById agents k2 := by
  induction agents with
  | nil => simp [findAgentById, updFirst]
  | cons a rest ih =>
    by_cases hp : a.id = k
    · simp [updFirst, findAgentById, hp, hf, Ne.symm h]
    · simp [updFirst, findAgentById, hp, ih]

theorem mem_updFirst (agents : List Agent) (k : ℕ) (f : Agent → Agent) (b : Agent)
    (hb : b ∈ updFirst agents k f) : b ∈ agents ∨ ∃ a, a ∈ agents ∧ b = f a := by
  induction agents with
  | nil => simp [updFirst] at hb
  | cons a rest ih =>
    by_cases hp : a.id = k
    · simp only [updFirst, hp, beq_self_eq_true, if_true, List.mem_cons] at hb
      rcases hb with hb | hb
      · exact Or.inr ⟨a, by simp, hb⟩
      · exact Or.inl (List.mem_cons_of_mem a hb)
    · simp only [updFirst, beq_iff_eq, hp, if_false, List.mem_cons] at hb
      rcases hb with hb | hb
      · exact Or.inl (by simp [hb])
      · rcases ih hb with h1 | ⟨a2, ha2, hb2⟩
        · exact Or.inl (List.mem_cons_of_mem a h1)
        · exact Or.inr ⟨a2, List.mem_cons_of_mem a ha2, hb2⟩

/-! Claim theorems. -/

/-- C1: the Dispatcher priority score is infinity when the agent is not
available, and otherwise equals `recentCallCount * 10 + avgCallDurationSeconds
/ 60`, minus `(totalFeedbackScore / feedbackCount) * 5` when `feedbackCount >
0`; an agent starting with no feedback that receives ratings 4 and 2 through
`update_agent_feedback` ends with mean rating 3 and a recomputed score exactly
15 lower, all other metrics unchanged. -/
theorem calculate_priority_score_spec (a : Agent) :
    (a.is_available = false → a.calculate_priority_score = PScore.inf)
    ∧ (a.is_available = true →
        a.calculate_priority_score =
          PScore.fin ((a.recent_call_count : ℚ) * 10 + a.avg_call_duration / 60 -
            (if 0 < a.feedback_count then
              a.total_feedback_score / (a.feedback_count : ℚ) * 5
            else 0)))
    ∧ (∀ (s : SysState) (k : ℕ),
        findAgentById s.agents k = some a →
        a.feedback_count = 0 → a.total_feedback_score = 0 →
        ∃ a2,
          findAgentById (update_agent_feedback (update_agent_feedback s k 4) k 2).agents k
            = some a2
          ∧ a2.total_feedback_score / (a2.feedback_count : ℚ) = 3
          ∧ a2.feedback_count = 2
          ∧ a2.recent_call_count = a.recent_call_count
          ∧ a2.avg_call_duration = a.avg_call_duration
          ∧ a2.total_calls = a.total_calls
          ∧ a2.is_available = a.is_available
          ∧ a2.language = a.language
          ∧ a2.phone_number = a.phone_number
          ∧ (∀ q : ℚ, a.calculate_priority_score = PScore.fin q →
              a2.calculate_priority_score = PScore.fin (q - 15))) := by
  refine ⟨fun h => by simp [Agent.calculate_priority_score, h], fun h => by
    simp [Agent.calculate_priority_score, h], ?_⟩
  intro s k hfind hfc htfs
  have hstep : ∀ (s2 : SysState) (r : ℕ),
      findAgentById (update_agent_feedback s2 k r).agents k =
        (findAgentById s2.agents k).map (feedbackUpd r) := by
    intro s2 r
    exact findAgentById_updFirst_self s2.agents k (feedbackUpd r) (fun x => rfl)
  have hf2 : findAgentById
      (update_agent_feedback (update_agent_feedback s k 4) k 2).agents k
      = some (feedbackUpd 2 (feedbackUpd 4 a)) := by
    rw [hstep, hstep, hfind]
    rfl
  refine ⟨_, hf2, ?_, ?_, rfl, rfl, rfl, rfl, rfl, rfl, ?_⟩
  · simp [feedbackUpd, hfc, htfs]
    norm_num
  · simp [feedbackUpd, hfc]
  · intro q hq
    by_cases hav : a.is_available
    · have hcalc : a.calculate_priority_score
          = PScore.fin (0 + (a.recent_call_count : ℚ) * 10 + a.avg_call_duration / 60 - 0) := by
        simp [Agent.calculate_priority_score, hav, hfc]
      rw [hcalc] at hq
      have hq2 : 0 + (a.recent_call_count : ℚ) * 10 + a.avg_call_duration / 60 - 0 = q :=
        PScore.fin.inj hq
      have hgoal : (feedbackUpd 2 (feedbackUpd 4 a)).calculate_priority_score
          = PScore.fin (0 + (a.recent_call_count : ℚ) * 10 + a.avg_call_duration / 60 - 15) := by
        simp [Agent.calculate_priority_score, feedbackUpd, hav, hfc, htfs]
        norm_num
      rw [hgoal, ← hq2]
      congr 1
      ring
    · simp only [Bool.not_eq_true] at hav
      simp [Agent.calculate_priority_score, hav] at hq

/-- C1 witness: the scenario instantiated at a fresh English agent. -/
theorem calculate_priority_score_spec_witness :
    ∃ a2,
      findAgentById (update_agent_feedback (update_agent_feedback sampleSysE 1 4) 1 2).agents 1
        = some a2
      ∧ a2.total_feedback_score / (a2.feedback_count : ℚ) = 3
      ∧ a2.feedback_count = 2
      ∧ a2.recent_call_count = sampleAgentE.recent_call_count
      ∧ a2.avg_call_duration = sampleAgentE.avg_call_duration
      ∧ a2.total_calls = sampleAgentE.total_calls
      ∧ a2.is_available = sampleAgentE.is_available
      ∧ a2.language = sampleAgentE.language
      ∧ a2.phone_number = sampleAgentE.phone_number
      ∧ (∀ q : ℚ, sampleAgentE.calculate_priority_score = PScore.fin q →
          a2.calculate_priority_score = PScore.fin (q - 15)) :=
  (calculate_priority_score_spec sampleAgentE).2.2 sampleSysE 1 (by decide) rfl rfl

/-- C4 counterexample: a second `create_call_session` for an already-present
call UUID does not leave the stored session unchanged — it resets the selected
language (and agent and start time). -/
theorem create_call_session_not_idempotent :
    storeGet (create_call_session [("c1", ⟨"p1", some "english", some 3, 5⟩)] "c1" "p1" 9) "c1"
      ≠ storeGet [("c1", (⟨"p1", some "english", some 3, 5⟩ : CallSession))] "c1" := by
  decide

/-- C4 amended: `create_call_session` unconditionally stores a fresh session
with null language and agent under the call UUID, overwriting any session
already stored there, and leaves every other key unchanged. -/
theorem create_call_session_overwrites (st : Store) (call_uuid customer_phone : String)
    (now : ℚ) :
    storeGet (create_call_session st call_uuid customer_phone now) call_uuid
      = some ⟨customer_phone, none, none, now⟩
    ∧ ∀ k, k ≠ call_uuid →
        storeGet (create_call_session st call_uuid customer_phone now) k = storeGet st k :=
  ⟨storeGet_storeSet_self st call_uuid _,
   fun k hk => storeGet_storeSet_ne st call_uuid k _ hk⟩

/-- C4 witness. -/
theorem create_call_session_overwrites_witness :
    storeGet (create_call_session [] "c1" "p1" 3) "c1" = some ⟨"p1", none, none, 3⟩
    ∧ storeGet (create_call_session [] "c1" "p1" 3) "c2" = storeGet [] "c2" :=
  ⟨(create_call_session_overwrites [] "c1" "p1" 3).1,
   (create_call_session_overwrites [] "c1" "p1" 3).2 "c2" (by decide)⟩

/-- C5: the first `end_call_session` for a live call UUID returns the stored
session together with `now - startTime` and removes it; once the UUID is gone,
a second end returns the missing outcome `(None, 0)` with the store untouched,
and the whole `/plivo/callback` handler leaves every table unchanged — no
duration accounting, no agent release, no feedback application. -/
theorem end_call_session_exactly_once (st : AppState) (call_uuid : String)
    (sess : CallSession) (now : ℚ)
    (h : storeGet st.calls call_uuid = some sess)
    (hn : (st.calls.map Prod.fst).Nodup) :
    end_call_session st.calls call_uuid now
      = (some sess, now - sess.start_time, storeDel st.calls call_uuid)
    ∧ storeGet (storeDel st.calls call_uuid) call_uuid = none
    ∧ ∀ (st2 : AppState) (digit : Option String) (now2 : ℚ),
        storeGet st2.calls call_uuid = none →
        end_call_session st2.calls call_uuid now2 = (none, 0, st2.calls)
        ∧ plivo_callback st2 call_uuid digit now2 = some st2 := by
  refine ⟨by simp [end_call_session, h], storeGet_storeDel_self _ _ hn, ?_⟩
  intro st2 digit now2 h2
  constructor
  · simp [end_call_session, h2]
  · simp [plivo_callback, end_call_session, h2]

/-- C5 witness. -/
theorem end_call_session_exactly_once_witness :
    (end_call_session sampleApp.calls "c1" 10
      = (some ⟨"p1", some "english", some 1, 4⟩, 10 - (4 : ℚ), storeDel sampleApp.calls "c1"))
    ∧ storeGet (storeDel sampleApp.calls "c1") "c1" = none
    ∧ (end_call_session sampleAppEmpty.calls "c1" 11 = (none, 0, sampleAppEmpty.calls)
       ∧ plivo_callback sampleAppEmpty "c1" (some "4") 11 = some sampleAppEmpty) := by
  have h := end_call_session_exactly_once sampleApp "c1" ⟨"p1", some "english", some 1, 4⟩ 10
    (by decide) (by decide)
  exact ⟨h.1, h.2.1, h.2.2 sampleAppEmpty (some "4") 11 (by decide)⟩

/-- C6 counterexample: on a missing session, `update_call_language` silently
returns the store unchanged — there is no surfaced missing-session outcome,
unlike the spec-modelled `setLanguage_spec`, which fails there. -/
theorem update_call_language_missing_silent :
    update_call_language [] "c1" "english" = ([] : Store)
    ∧ setLanguage_spec [] "c1" "english" = none :=
  ⟨rfl, rfl⟩

/-- C6 amended: when the session is missing, `update_call_language` silently
does nothing (the store is returned unchanged, with no failure signalled); when
the session exists, it sets the language and changes nothing else. -/
theorem update_call_language_behavior (st : Store) (call_uuid language : String) :
    (storeGet st call_uuid = none → update_call_language st call_uuid language = st)
    ∧ ∀ sess, storeGet st call_uuid = some sess →
        storeGet (update_call_language st call_uuid language) call_uuid
          = some { sess with language := some language }
        ∧ ∀ k, k ≠ call_uuid →
            storeGet (update_call_language st call_uuid language) k = storeGet st k := by
  refine ⟨fun h => storeUpdFirst_missing st call_uuid _ h,
    fun sess h => ⟨?_, fun k hk => ?_⟩⟩
  · exact storeGet_storeUpdFirst_self st call_uuid _ sess h
  · exact storeGet_storeUpdFirst_ne st call_uuid k _ hk

/-- C6 witness. -/
theorem update_call_language_behavior_witness :
    (update_call_language [] "c1" "english" = ([] : Store))
    ∧ storeGet
        (update_call_language [("c1", (⟨"p1", none, none, 2⟩ : CallSession))] "c1" "spanish")
        "c1" = some ⟨"p1", some "spanish", none, 2⟩
    ∧ storeGet
        (update_call_language [("c1", (⟨"p1", none, none, 2⟩ : CallSession))] "c1" "spanish")
        "c2" = storeGet [("c1", (⟨"p1", none, none, 2⟩ : CallSession))] "c2" := by
  refine ⟨(update_call_language_behavior [] "c1" "english").1 rfl, ?_, ?_⟩
  · exact ((update_call_language_behavior _ "c1" "spanish").2
      ⟨"p1", none, none, 2⟩ (by decide)).1
  · exact ((update_call_language_behavior _ "c1" "spanish").2
      ⟨"p1", none, none, 2⟩ (by decide)).2 "c2" (by decide)

/-- C8 counterexample: releasing an agent whose registry row is missing is not
a complete no-op — the busy map still loses the agent's key, because the busy
deletion happens before the registry lookup. -/
theorem release_agent_missing_busy_cx :
    release_agent ⟨[], [], [], [(5, "c9")]⟩ 5 7 0
      ≠ (⟨[], [], [], [(5, "c9")]⟩ : SysState) := by
  decide

/-- C8 amended: when the registry row is missing, `release_agent` changes no
agent metrics and inserts no queue entry into any partition, but it still
removes the agent id from the busy map when present. -/
theorem release_agent_missing_spec (s : SysState) (k : ℕ) (d now : ℚ)
    (h : findAgentById s.agents k = none) :
    release_agent s k d now = { s with busy_agents := busyDel s.busy_agents k } := by
  simp [release_agent, h]

/-- C8 witness. -/
theorem release_agent_missing_spec_witness :
    release_agent ⟨[], [], [], [(5, "c9")]⟩ 5 7 0
      = { (⟨[], [], [], [(5, "c9")]⟩ : SysState) with busy_agents := busyDel [(5, "c9")] 5 } :=
  release_agent_missing_spec ⟨[], [], [], [(5, "c9")]⟩ 5 7 0 rfl

/-! Lemmas about the pop loop and membership in heaps. -/

theorem findAgentById_mem (agents : List Agent) (k : ℕ) (a : Agent)
    (h : findAgentById agents k = some a) : a ∈ agents ∧ a.id = k := by
  induction agents with
  | nil => simp [findAgentById] at h
  | cons b rest ih =>
    by_cases hp : b.id = k
    · simp only [findAgentById, hp, beq_self_eq_true, if_true, Option.some.injEq] at h
      exact ⟨by simp [h], h ▸ hp⟩
    · simp only [findAgentById, beq_iff_eq, hp, if_false] at h
      rcases ih h with ⟨h1, h2⟩
      exact ⟨List.mem_cons_of_mem b h1, h2⟩

theorem selectLoop_none_rest (agents : List Agent) (busy : List (ℕ × String)) :
    ∀ heap rest, selectLoop agents busy heap = (none, rest) → rest = [] := by
  intro heap
  induction heap with
  | nil =>
    intro rest h
    simp only [selectLoop, Prod.mk.injEq] at h
    exact h.2.symm
  | cons e tl ih =>
    intro rest h
    rcases hfa : findAgentById agents e.agent_id with _ | a
    · simp only [selectLoop, hfa] at h
      exact ih rest h
    · simp only [selectLoop, hfa] at h
      by_cases hc : (a.is_available && !(busyContains busy e.agent_id)) = true
      · rw [if_pos hc] at h
        simp at h
      · rw [if_neg hc] at h
        exact ih rest h

theorem selectLoop_rest_suffix (agents : List Agent) (busy : List (ℕ × String)) :
    ∀ heap r rest, selectLoop agents busy heap = (r, rest) → rest.IsSuffix heap := by
  intro heap
  induction heap with
  | nil =>
    intro r rest h
    simp only [selectLoop, Prod.mk.injEq] at h
    simp [← h.2]
  | cons e tl ih =>
    intro r rest h
    rcases hfa : findAgentById agents e.agent_id with _ | a
    · simp only [selectLoop, hfa] at h
      exact (ih r rest h).trans (List.suffix_cons e tl)
    · simp only [selectLoop, hfa] at h
      by_cases hc : (a.is_available && !(busyContains busy e.agent_id)) = true
      · rw [if_pos hc] at h
        simp only [Prod.mk.injEq] at h
        exact h.2 ▸ List.suffix_cons e tl
      · rw [if_neg hc] at h
        exact (ih r rest h).trans (List.suffix_cons e tl)

theorem selectLoop_some_facts (agents : List Agent) (busy : List (ℕ × String)) :
    ∀ heap k ph rest, selectLoop agents busy heap = (some (k, ph), rest) →
      (∃ a, findAgentById agents k = some a ∧ a.is_available = true)
      ∧ busyContains busy k = false
      ∧ rest.IsSuffix heap
      ∧ ∃ e, e ∈ heap ∧ e.agent_id = k ∧ e.phone = ph := by
  intro heap
  induction heap with
  | nil =>
    intro k ph rest h
    simp [selectLoop] at h
  | cons e tl ih =>
    intro k ph rest h
    have hsuf := selectLoop_rest_suffix agents busy (e :: tl) (some (k, ph)) rest h
    rcases hfa : findAgentById agents e.agent_id with _ | a
    · simp only [selectLoop, hfa] at h
      rcases ih k ph rest h with ⟨h1, h2, _, e2, he2, hek, hep⟩
      exact ⟨h1, h2, hsuf, e2, List.mem_cons_of_mem e he2, hek, hep⟩
    · simp only [selectLoop, hfa] at h
      by_cases hc : (a.is_available && !(busyContains busy e.agent_id)) = true
      · rw [if_pos hc] at h
        simp only [Prod.mk.injEq, Option.some.injEq] at h
        rcases h with ⟨⟨hk, hph⟩, _⟩
        rcases (Bool.and_eq_true _ _).mp hc with ⟨hav, hnb⟩
        refine ⟨⟨a, hk ▸ hfa, hav⟩, ?_, hsuf, e, List.mem_cons_self e tl, hk, hph⟩
        rw [← hk]
        simpa using hnb
      · rw [if_neg hc] at h
        rcases ih k ph rest h with ⟨h1, h2, _, e2, he2, hek, hep⟩
        exact ⟨h1, h2, hsuf, e2, List.mem_cons_of_mem e he2, hek, hep⟩

/-- C2: `get_best_agent` never returns an agent whose availability flag is
false or whose id is in the busy map at the time of the call; it marks the
returned agent unavailable, leaves the busy map alone, discards every stale
popped entry (the remaining selected heap is a suffix of the original, with
nothing reinserted), and returns the no-agent outcome with the selected heap
exhausted when no valid candidate remains. -/
theorem get_best_agent_valid (s : SysState) (language : String) :
    (∀ k ph s2, get_best_agent s language = (some (k, ph), s2) →
      (∃ a, findAgentById s.agents k = some a ∧ a.is_available = true)
      ∧ busyContains s.busy_agents k = false
      ∧ s2.busy_agents = s.busy_agents
      ∧ s2.agents = updFirst s.agents k (fun a => { a with is_available := false })
      ∧ ((language == "english") = true →
          s2.english_heap.IsSuffix s.english_heap ∧ s2.spanish_heap = s.spanish_heap)
      ∧ ((language == "english") = false →
          s2.spanish_heap.IsSuffix s.spanish_heap ∧ s2.english_heap = s.english_heap))
    ∧ (∀ s2, get_best_agent s language = (none, s2) →
        s2.agents = s.agents ∧ s2.busy_agents = s.busy_agents
        ∧ ((language == "english") = true →
            s2.english_heap = [] ∧ s2.spanish_heap = s.spanish_heap)
        ∧ ((language == "english") = false →
            s2.spanish_heap = [] ∧ s2.english_heap = s.english_heap)) := by
  constructor
  · intro k ph s2 h
    by_cases hl : (language == "english") = true
    · rcases hres : selectLoop s.agents s.busy_agents s.english_heap with ⟨r, rest⟩
      simp only [get_best_agent, hl, if_true, hres] at h
      cases r with
      | none => simp at h
      | some kp =>
        rcases kp with ⟨k2, ph2⟩
        simp only [Prod.mk.injEq, Option.some.injEq] at h
        rcases h with ⟨⟨hk2, hph2⟩, hs2⟩
        subst hk2 hph2
        rcases selectLoop_some_facts s.agents s.busy_agents s.english_heap k2 ph2 rest hres
          with ⟨h1, h2, h3, _⟩
        refine ⟨h1, h2, by simp [← hs2], by simp [← hs2], fun _ => ?_, fun hf => ?_⟩
        · exact ⟨by simpa [← hs2] using h3, by simp [← hs2]⟩
        · rw [hl] at hf; cases hf
    · have hl2 : (language == "english") = false := by
        simpa using hl
      rcases hres : selectLoop s.agents s.busy_agents s.spanish_heap with ⟨r, rest⟩
      simp only [get_best_agent, hl2, Bool.false_eq_true, if_false, hres] at h
      cases r with
      | none => simp at h
      | some kp =>
        rcases kp with ⟨k2, ph2⟩
        simp only [Prod.mk.injEq, Option.some.injEq] at h
        rcases h with ⟨⟨hk2, hph2⟩, hs2⟩
        subst hk2 hph2
        rcases selectLoop_some_facts s.agents s.busy_agents s.spanish_heap k2 ph2 rest hres
          with ⟨h1, h2, h3, _⟩
        refine ⟨h1, h2, by simp [← hs2], by simp [← hs2], fun ht => ?_, fun _ => ?_⟩
        · rw [hl2] at ht; cases ht
        · exact ⟨by simpa [← hs2] using h3, by simp [← hs2]⟩
  · intro s2 h
    by_cases hl : (language == "english") = true
    · rcases hres : selectLoop s.agents s.busy_agents s.english_heap with ⟨r, rest⟩
      simp only [get_best_agent, hl, if_true, hres] at h
      cases r with
      | some kp => rcases kp with ⟨k2, ph2⟩; simp at h
      | none =>
        have hrest : rest = [] := selectLoop_none_rest s.agents s.busy_agents _ rest hres
        simp only [Prod.mk.injEq] at h
        rcases h with ⟨_, hs2⟩
        refine ⟨by simp [← hs2], by simp [← hs2], fun _ => ?_, fun hf => ?_⟩
        · exact ⟨by simp [← hs2, hrest], by simp [← hs2]⟩
        · rw [hl] at hf; cases hf
    · have hl2 : (language == "english") = false := by
        simpa using hl
      rcases hres : selectLoop s.agents s.busy_agents s.spanish_heap with ⟨r, rest⟩
      simp only [get_best_agent, hl2, Bool.false_eq_true, if_false, hres] at h
      cases r with
      | some kp => rcases kp with ⟨k2, ph2⟩; simp at h
      | none =>
        have hrest : rest = [] := selectLoop_none_rest s.agents s.busy_agents _ rest hres
        simp only [Prod.mk.injEq] at h
        rcases h with ⟨_, hs2⟩
        refine ⟨by simp [← hs2], by simp [← hs2], fun ht => ?_, fun _ => ?_⟩
        · rw [hl2] at ht; cases ht
        · exact ⟨by simp [← hs2, hrest], by simp [← hs2]⟩

/-- C2 witness: a state with one valid queued English agent. -/
theorem get_best_agent_valid_witness :
    (∃ a, findAgentById sampleSelState.agents 1 = some a ∧ a.is_available = true)
    ∧ busyContains sampleSelState.busy_agents 1 = false
    ∧ sampleSelStateDone.busy_agents = sampleSelState.busy_agents
    ∧ sampleSelStateDone.agents = updFirst sampleSelState.agents 1
        (fun a => { a with is_available := false })
    ∧ (("english" == "english") = true →
        sampleSelStateDone.english_heap.IsSuffix sampleSelState.english_heap
        ∧ sampleSelStateDone.spanish_heap = sampleSelState.spanish_heap)
    ∧ (("english" == "english") = false →
        sampleSelStateDone.spanish_heap.IsSuffix sampleSelState.spanish_heap
        ∧ sampleSelStateDone.english_heap = sampleSelState.english_heap) :=
  (get_best_agent_valid sampleSelState "english").1 1 "e1" sampleSelStateDone (by decide)

/-- C3 counterexample: a language outside the known set does not get the
no-agent outcome — `get_best_agent` routes any language other than 'english' to
the spanish heap, so with a valid Spanish agent queued, selecting for "french"
returns that agent. -/
theorem get_best_agent_unknown_language_cx :
    (get_best_agent frState "french").1 = some (1, "spPhone") := by
  norm_num [frState, frAgent, initialize_heaps, buildHeap, agentEntry,
    Agent.calculate_priority_score, insertEntry, entryLe, PScore.ltB,
    get_best_agent, selectLoop, findAgentById, busyContains]

/-- C3 amended: when the selected partition (english for 'english', the spanish
partition for every other language) is empty, `get_best_agent` returns the
no-agent outcome `(None, None)` with the whole state — busy set included —
unchanged; a language outside the known set is not rejected but behaves exactly
like 'spanish'. -/
theorem get_best_agent_empty_partition (s : SysState) (language : String) :
    ((if language == "english" then s.english_heap else s.spanish_heap) = [] →
      get_best_agent s language = (none, s))
    ∧ (language ≠ "english" → get_best_agent s language = get_best_agent s "spanish") := by
  constructor
  · intro h
    by_cases hl : (language == "english") = true
    · have h2 : s.english_heap = [] := by simpa [hl] using h
      have hsl : selectLoop s.agents s.busy_agents s.english_heap = (none, []) := by
        rw [h2]; rfl
      have hg : get_best_agent s language = (none, { s with english_heap := [] }) := by
        simp [get_best_agent, hl, hsl]
      rw [hg, ← h2]
    · have hl2 : (language == "english") = false := by simpa using hl
      have h2 : s.spanish_heap = [] := by simpa [hl2] using h
      have hsl : selectLoop s.agents s.busy_agents s.spanish_heap = (none, []) := by
        rw [h2]; rfl
      have hg : get_best_agent s language = (none, { s with spanish_heap := [] }) := by
        simp [get_best_agent, hl2, hsl]
      rw [hg, ← h2]
  · intro hne
    have hl2 : (language == "english") = false := by simpa using hne
    have hsp : (("spanish" : String) == "english") = false := by decide
    simp only [get_best_agent, hl2, hsp, Bool.false_eq_true, if_false]

/-- C3 witness. -/
theorem get_best_agent_empty_partition_witness :
    get_best_agent (⟨[], [], [], [(3, "c7")]⟩ : SysState) "spanish"
      = (none, (⟨[], [], [], [(3, "c7")]⟩ : SysState))
    ∧ get_best_agent (⟨[], [], [], [(3, "c7")]⟩ : SysState) "french"
      = get_best_agent (⟨[], [], [], [(3, "c7")]⟩ : SysState) "spanish" :=
  ⟨(get_best_agent_empty_partition ⟨[], [], [], [(3, "c7")]⟩ "spanish").1 (by decide),
   (get_best_agent_empty_partition ⟨[], [], [], [(3, "c7")]⟩ "french").2 (by decide)⟩

/-- C7: for an agent present in the registry, `release_agent` removes it from
the busy map, folds the duration into the running average
`(avg * totalCalls + d) / (totalCalls + 1)`, increments `totalCalls` and
`recentCallCount`, marks the agent available, and pushes exactly one entry —
scored from the freshly updated metrics — onto its own language partition's
queue and no other. -/
theorem release_agent_spec (s : SysState) (k : ℕ) (d now : ℚ) (a : Agent)
    (ha : findAgentById s.agents k = some a) :
    (release_agent s k d now).busy_agents = busyDel s.busy_agents k
    ∧ (release_agent s k d now).agents = updFirst s.agents k (fun _ => releasedAgent a d now)
    ∧ (releasedAgent a d now).avg_call_duration
        = (a.avg_call_duration * (a.total_calls : ℚ) + d) / ((a.total_calls : ℚ) + 1)
    ∧ (releasedAgent a d now).total_calls = a.total_calls + 1
    ∧ (releasedAgent a d now).recent_call_count = a.recent_call_count + 1
    ∧ (releasedAgent a d now).is_available = true
    ∧ (a.language = "english" →
        (release_agent s k d now).english_heap
          = insertEntry (agentEntry (releasedAgent a d now)) s.english_heap
        ∧ (release_agent s k d now).spanish_heap = s.spanish_heap)
    ∧ (a.language = "spanish" →
        (release_agent s k d now).spanish_heap
          = insertEntry (agentEntry (releasedAgent a d now)) s.spanish_heap
        ∧ (release_agent s k d now).english_heap = s.english_heap) := by
  have hlang : (releasedAgent a d now).language = a.language := rfl
  by_cases hen : a.language = "english"
  · have hc : ((releasedAgent a d now).language == "english") = true := by
      simp [hlang, hen]
    have hrel : release_agent s k d now
        = { s with busy_agents := busyDel s.busy_agents k,
                   agents := updFirst s.agents k (fun _ => releasedAgent a d now),
                   english_heap :=
                     insertEntry (agentEntry (releasedAgent a d now)) s.english_heap } := by
      simp [release_agent, ha, hc]
    rw [hrel]
    exact ⟨rfl, rfl, rfl, rfl, rfl, rfl, fun _ => ⟨rfl, rfl⟩,
      fun hsp => absurd (hen ▸ hsp) (by decide)⟩
  · by_cases hsp : a.language = "spanish"
    · have hc : ((releasedAgent a d now).language == "english") = false := by
        simp [hlang, hen]
      have hc2 : ((releasedAgent a d now).language == "spanish") = true := by
        simp [hlang, hsp]
      have hrel : release_agent s k d now
          = { s with busy_agents := busyDel s.busy_agents k,
                     agents := updFirst s.agents k (fun _ => releasedAgent a d now),
                     spanish_heap :=
                       insertEntry (agentEntry (releasedAgent a d now)) s.spanish_heap } := by
        simp [release_agent, ha, hc, hc2]
      rw [hrel]
      exact ⟨rfl, rfl, rfl, rfl, rfl, rfl, fun hee => absurd hee hen, fun _ => ⟨rfl, rfl⟩⟩
    · have hc : ((releasedAgent a d now).language == "english") = false := by
        simp [hlang, hen]
      have hc2 : ((releasedAgent a d now).language == "spanish") = false := by
        simp [hlang, hsp]
      have hrel : release_agent s k d now
          = { s with busy_agents := busyDel s.busy_agents k,
                     agents := updFirst s.agents k (fun _ => releasedAgent a d now) } := by
        simp [release_agent, ha, hc, hc2]
      rw [hrel]
      exact ⟨rfl, rfl, rfl, rfl, rfl, rfl, fun hee => absurd hee hen,
        fun hss => absurd hss hsp⟩

/-- C7 witness: release of the sample English agent after a 60-second call. -/
theorem release_agent_spec_witness :
    (release_agent sampleSysE 1 60 100).busy_agents = busyDel sampleSysE.busy_agents 1
    ∧ (release_agent sampleSysE 1 60 100).english_heap
        = insertEntry (agentEntry (releasedAgent sampleAgentE 60 100)) sampleSysE.english_heap
    ∧ (release_agent sampleSysE 1 60 100).spanish_heap = sampleSysE.spanish_heap
    ∧ (releasedAgent sampleAgentE 60 100).total_calls = sampleAgentE.total_calls + 1 := by
  have h := release_agent_spec sampleSysE 1 60 100 sampleAgentE (by decide)
  exact ⟨h.1, (h.2.2.2.2.2.2.1 rfl).1, (h.2.2.2.2.2.2.1 rfl).2, h.2.2.2.1⟩

/-- C9: queue entries with equal scores order by agent id (the second tuple
component), so among valid tied agents the lowest id wins; in the three-agent
scenario with rolling counts 0, 5, 0, agent 1 — the count-0 agent with the
lower id — is returned. -/
theorem tie_break_lowest_id :
    (∀ (q : PScore) (i j : ℕ) (p1 p2 : String), i < j →
        entryLe ⟨q, i, p1⟩ ⟨q, j, p2⟩ = true ∧ entryLe ⟨q, j, p2⟩ ⟨q, i, p1⟩ = false)
    ∧ (get_best_agent tieState "english").1 = some (1, "e1") := by
  constructor
  · intro q i j p1 p2 hij
    have hqq : PScore.ltB q q = false := by
      cases q with
      | fin r => simp [PScore.ltB]
      | inf => simp [PScore.ltB]
    constructor
    · simp [entryLe, hqq, hij]
    · simp [entryLe, hqq, hij, Nat.lt_asymm hij]
  · norm_num [tieState, tieAgent, initialize_heaps, buildHeap, agentEntry,
      Agent.calculate_priority_score, insertEntry, entryLe, PScore.ltB,
      get_best_agent, selectLoop, findAgentById, busyContains]

/-- C9 witness: the tie-break order on two equal-score entries. -/
theorem tie_break_lowest_id_witness :
    entryLe ⟨PScore.fin 0, 1, "a"⟩ ⟨PScore.fin 0, 2, "b"⟩ = true
    ∧ entryLe ⟨PScore.fin 0, 2, "b"⟩ ⟨PScore.fin 0, 1, "a"⟩ = false :=
  tie_break_lowest_id.1 (PScore.fin 0) 1 2 "a" "b" (by decide)

/-! Lemmas for the trace-level invariant about unknown-language agents. -/

theorem mem_insertEntry (x : Entry) (l : List Entry) (e : Entry)
    (he : e ∈ insertEntry x l) : e = x ∨ e ∈ l := by
  induction l with
  | nil => simpa [insertEntry] using he
  | cons y ys ih =>
    by_cases hc : entryLe y x = true
    · rw [insertEntry, if_pos hc] at he
      rcases List.mem_cons.mp he with h | h
      · exact Or.inr (h ▸ List.mem_cons_self y ys)
      · rcases ih h with h2 | h2
        · exact Or.inl h2
        · exact Or.inr (List.mem_cons_of_mem y h2)
    · rw [insertEntry, if_neg hc] at he
      rcases List.mem_cons.mp he with h | h
      · exact Or.inl h
      · exact Or.inr h

theorem buildHeap_go_mem (lang : String) :
    ∀ (agents : List Agent) (acc : List Entry) (e : Entry),
      e ∈ agents.foldl (fun h2 a =>
        if a.is_available && (a.language == lang) then insertEntry (agentEntry a) h2
        else h2) acc →
      e ∈ acc ∨ ∃ a, a ∈ agents ∧ a.is_available = true ∧ a.language = lang ∧ e = agentEntry a := by
  intro agents
  induction agents with
  | nil => intro acc e he; exact Or.inl (by simpa using he)
  | cons a rest ih =>
    intro acc e he
    simp only [List.foldl_cons] at he
    by_cases hc : (a.is_available && (a.language == lang)) = true
    · rw [if_pos hc] at he
      rcases (Bool.and_eq_true _ _).mp hc with ⟨hav, hlang⟩
      rcases ih _ e he with hacc | ⟨a2, ha2, h1, h2, h3⟩
      · rcases mem_insertEntry _ _ _ hacc with h4 | h4
        · exact Or.inr ⟨a, List.mem_cons_self a rest, hav, by simpa using hlang, h4⟩
        · exact Or.inl h4
      · exact Or.inr ⟨a2, List.mem_cons_of_mem a ha2, h1, h2, h3⟩
    · rw [if_neg hc] at he
      rcases ih _ e he with hacc | ⟨a2, ha2, h1, h2, h3⟩
      · exact Or.inl hacc
      · exact Or.inr ⟨a2, List.mem_cons_of_mem a ha2, h1, h2, h3⟩

theorem buildHeap_mem (lang : String) (agents : List Agent) (e : Entry)
    (he : e ∈ buildHeap lang agents) :
    ∃ a, a ∈ agents ∧ a.is_available = true ∧ a.language = lang ∧ e = agentEntry a := by
  rcases buildHeap_go_mem lang agents [] e he with h | h
  · simp at h
  · exact h

theorem buildHeap_no_unknown (k : ℕ) (lang : String) (agents : List Agent)
    (hag : ∀ a, a ∈ agents → a.id = k → a.language ≠ lang) :
    ∀ e, e ∈ buildHeap lang agents → e.agent_id ≠ k := by
  intro e he hek
  rcases buildHeap_mem lang agents e he with ⟨a, ha, _, hlang, hea⟩
  rw [hea] at hek
  exact hag a ha hek hlang

theorem updFirst_pred (P : Agent → Prop) (agents : List Agent) (k2 : ℕ) (f : Agent → Agent)
    (hP : ∀ a, a ∈ agents → P a) (hf : ∀ a, a ∈ agents → P (f a)) :
    ∀ b, b ∈ updFirst agents k2 f → P b := by
  intro b hb
  rcases mem_updFirst agents k2 f b hb with h | ⟨a, ha, hba⟩
  · exact hP b h
  · exact hba ▸ hf a ha

theorem pred_of_id_lang (k : ℕ) (f : Agent → Agent)
    (hf : ∀ a, (f a).id = a.id ∧ (f a).language = a.language)
    (a : Agent) (hP : a.id = k → a.language ≠ "english" ∧ a.language ≠ "spanish") :
    (f a).id = k → (f a).language ≠ "english" ∧ (f a).language ≠ "spanish" := by
  intro hk
  rw [(hf a).2]
  exact hP ((hf a).1 ▸ hk)

theorem select_state_components (s : SysState) (lang : String) :
    ((get_best_agent s lang).2.agents = s.agents
      ∨ ∃ k2, (get_best_agent s lang).2.agents
          = updFirst s.agents k2 (fun a => { a with is_available := false }))
    ∧ (∀ e, e ∈ (get_best_agent s lang).2.english_heap → e ∈ s.english_heap)
    ∧ (∀ e, e ∈ (get_best_agent s lang).2.spanish_heap → e ∈ s.spanish_heap) := by
  by_cases hl : (lang == "english") = true
  · rcases hres : selectLoop s.agents s.busy_agents s.english_heap with ⟨r, rest⟩
    have hsub : ∀ x, x ∈ rest → x ∈ s.english_heap :=
      fun x hx => (selectLoop_rest_suffix s.agents s.busy_agents _ r rest hres).subset hx
    cases r with
    | none =>
      have hg : (get_best_agent s lang).2 = { s with english_heap := rest } := by
        simp [get_best_agent, hl, hres]
      rw [hg]
      exact ⟨Or.inl rfl, fun e he2 => hsub e he2, fun e he2 => he2⟩
    | some kp =>
      rcases kp with ⟨k2, ph2⟩
      have hg : (get_best_agent s lang).2
          = { s with english_heap := rest,
                     agents := updFirst s.agents k2
                       (fun a => { a with is_available := false }) } := by
        simp [get_best_agent, hl, hres]
      rw [hg]
      exact ⟨Or.inr ⟨k2, rfl⟩, fun e he2 => hsub e he2, fun e he2 => he2⟩
  · have hl2 : (lang == "english") = false := by simpa using hl
    rcases hres : selectLoop s.agents s.busy_agents s.spanish_heap with ⟨r, rest⟩
    have hsub : ∀ x, x ∈ rest → x ∈ s.spanish_heap :=
      fun x hx => (selectLoop_rest_suffix s.agents s.busy_agents _ r rest hres).subset hx
    cases r with
    | none =>
      have hg : (get_best_agent s lang).2 = { s with spanish_heap := rest } := by
        simp [get_best_agent, hl2, hres]
      rw [hg]
      exact ⟨Or.inl rfl, fun e he2 => he2, fun e he2 => hsub e he2⟩
    | some kp =>
      rcases kp with ⟨k2, ph2⟩
      have hg : (get_best_agent s lang).2
          = { s with spanish_heap := rest,
                     agents := updFirst s.agents k2
                       (fun a => { a with is_available := false }) } := by
        simp [get_best_agent, hl2, hres]
      rw [hg]
      exact ⟨Or.inr ⟨k2, rfl⟩, fun e he2 => he2, fun e he2 => hsub e he2⟩

theorem get_best_agent_result_in_heap (s : SysState) (lang : String) (k : ℕ) (ph : String)
    (h : (get_best_agent s lang).1 = some (k, ph)) :
    (∃ e, e ∈ s.english_heap ∧ e.agent_id = k)
    ∨ (∃ e, e ∈ s.spanish_heap ∧ e.agent_id = k) := by
  by_cases hl : (lang == "english") = true
  · rcases hres : selectLoop s.agents s.busy_agents s.english_heap with ⟨r, rest⟩
    have h1 : (get_best_agent s lang).1 = r := by
      cases r with
      | none => simp [get_best_agent, hl, hres]
      | some kp => rcases kp with ⟨k2, ph2⟩; simp [get_best_agent, hl, hres]
    rw [h1] at h
    rw [h] at hres
    rcases selectLoop_some_facts s.agents s.busy_agents s.english_heap k ph rest hres
      with ⟨_, _, _, e, he2, hek, _⟩
    exact Or.inl ⟨e, he2, hek⟩
  · have hl2 : (lang == "english") = false := by simpa using hl
    rcases hres : selectLoop s.agents s.busy_agents s.spanish_heap with ⟨r, rest⟩
    have h1 : (get_best_agent s lang).1 = r := by
      cases r with
      | none => simp [get_best_agent, hl2, hres]
      | some kp => rcases kp with ⟨k2, ph2⟩; simp [get_best_agent, hl2, hres]
    rw [h1] at h
    rw [h] at hres
    rcases selectLoop_some_facts s.agents s.busy_agents s.spanish_heap k ph rest hres
      with ⟨_, _, _, e, he2, hek, _⟩
    exact Or.inr ⟨e, he2, hek⟩

theorem applyOp_keeps_unknown (k : ℕ) (s : SysState) (o : Op)
    (hag : ∀ a, a ∈ s.agents → a.id = k → a.language ≠ "english" ∧ a.language ≠ "spanish")
    (he : ∀ e, e ∈ s.english_heap → e.agent_id ≠ k)
    (hs : ∀ e, e ∈ s.spanish_heap → e.agent_id ≠ k) :
    (∀ a, a ∈ (applyOp s o).agents → a.id = k →
      a.language ≠ "english" ∧ a.language ≠ "spanish")
    ∧ (∀ e, e ∈ (applyOp s o).english_heap → e.agent_id ≠ k)
    ∧ (∀ e, e ∈ (applyOp s o).spanish_heap → e.agent_id ≠ k) := by
  cases o with
  | rebuild =>
    exact ⟨hag,
      buildHeap_no_unknown k "english" s.agents (fun a ha hk => (hag a ha hk).1),
      buildHeap_no_unknown k "spanish" s.agents (fun a ha hk => (hag a ha hk).2)⟩
  | select language =>
    rcases select_state_components s language with ⟨hA, hE, hS⟩
    refine ⟨?_, fun e he2 => he e (hE e he2), fun e he2 => hs e (hS e he2)⟩
    rcases hA with hA | ⟨k2, hA⟩
    · show ∀ a, a ∈ (get_best_agent s language).2.agents → _
      rw [hA]
      exact hag
    · show ∀ a, a ∈ (get_best_agent s language).2.agents → _
      rw [hA]
      exact updFirst_pred _ s.agents k2 _ hag
        (fun a ha => pred_of_id_lang k _ (fun a2 => ⟨rfl, rfl⟩) a (hag a ha))
  | markBusy j u =>
    exact ⟨updFirst_pred _ s.agents j _ hag
      (fun a ha => pred_of_id_lang k _ (fun a2 => ⟨rfl, rfl⟩) a (hag a ha)), he, hs⟩
  | feedback j r =>
    exact ⟨updFirst_pred _ s.agents j _ hag
      (fun a ha => pred_of_id_lang k _ (fun a2 => ⟨rfl, rfl⟩) a (hag a ha)), he, hs⟩
  | resetCounts =>
    have hag2 : ∀ a, a ∈ s.agents.map (fun a => { a with recent_call_count := 0 }) →
        a.id = k → a.language ≠ "english" ∧ a.language ≠ "spanish" := by
      intro b hb
      rcases List.mem_map.mp hb with ⟨a, ha, rfl⟩
      exact pred_of_id_lang k _ (fun a2 => ⟨rfl, rfl⟩) a (hag a ha)
    exact ⟨hag2,
      buildHeap_no_unknown k "english" _ (fun a ha hk => (hag2 a ha hk).1),
      buildHeap_no_unknown k "spanish" _ (fun a ha hk => (hag2 a ha hk).2)⟩
  | release j d2 now2 =>
    simp only [applyOp]
    rcases hfa : findAgentById s.agents j with _ | a
    · have hrel : release_agent s j d2 now2
          = { s with busy_agents := busyDel s.busy_agents j } := by
        simp [release_agent, hfa]
      rw [hrel]
      exact ⟨hag, he, hs⟩
    · rcases findAgentById_mem s.agents j a hfa with ⟨hmem, hid⟩
      have hlangrel : (releasedAgent a d2 now2).language = a.language := rfl
      have hP1 : ∀ b, b ∈ s.agents →
          ((fun _ : Agent => releasedAgent a d2 now2) b).id = k →
          ((fun _ : Agent => releasedAgent a d2 now2) b).language ≠ "english"
          ∧ ((fun _ : Agent => releasedAgent a d2 now2) b).language ≠ "spanish" := by
        intro b _ hbk
        exact hag a hmem hbk
      by_cases h1 : ((releasedAgent a d2 now2).language == "english") = true
      · have hke : a.id ≠ k := by
          intro hk
          exact (hag a hmem hk).1 (by rw [← hlangrel]; simpa using h1)
        have hrel : release_agent s j d2 now2
            = { s with busy_agents := busyDel s.busy_agents j,
                       agents := updFirst s.agents j (fun _ => releasedAgent a d2 now2),
                       english_heap :=
                         insertEntry (agentEntry (releasedAgent a d2 now2)) s.english_heap } := by
          simp [release_agent, hfa, h1]
        rw [hrel]
        refine ⟨updFirst_pred _ s.agents j _ hag hP1, ?_, hs⟩
        intro e he2
        rcases mem_insertEntry _ _ _ he2 with h3 | h3
        · intro hk
          rw [h3] at hk
          exact hke hk
        · exact he e h3
      · by_cases h2 : ((releasedAgent a d2 now2).language == "spanish") = true
        · have hks : a.id ≠ k := by
            intro hk
            exact (hag a hmem hk).2 (by rw [← hlangrel]; simpa using h2)
          have hrel : release_agent s j d2 now2
              = { s with busy_agents := busyDel s.busy_agents j,
                         agents := updFirst s.agents j (fun _ => releasedAgent a d2 now2),
                         spanish_heap :=
                           insertEntry (agentEntry (releasedAgent a d2 now2)) s.spanish_heap } := by
            simp [release_agent, hfa, h1, h2]
          rw [hrel]
          refine ⟨updFirst_pred _ s.agents j _ hag hP1, he, ?_⟩
          intro e he2
          rcases mem_insertEntry _ _ _ he2 with h3 | h3
          · intro hk
            rw [h3] at hk
            exact hks hk
          · exact hs e h3
        · have hrel : release_agent s j d2 now2
              = { s with busy_agents := busyDel s.busy_agents j,
                         agents := updFirst s.agents j (fun _ => releasedAgent a d2 now2) } := by
            simp [release_agent, hfa, h1, h2]
          rw [hrel]
          exact ⟨updFirst_pred _ s.agents j _ hag hP1, he, hs⟩

theorem applyOps_keeps_unknown (k : ℕ) :
    ∀ (ops : List Op) (s : SysState),
    (∀ a, a ∈ s.agents → a.id = k → a.language ≠ "english" ∧ a.language ≠ "spanish") →
    (∀ e, e ∈ s.english_heap → e.agent_id ≠ k) →
    (∀ e, e ∈ s.spanish_heap → e.agent_id ≠ k) →
    (∀ a, a ∈ (applyOps s ops).agents → a.id = k →
      a.language ≠ "english" ∧ a.language ≠ "spanish")
    ∧ (∀ e, e ∈ (applyOps s ops).english_heap → e.agent_id ≠ k)
    ∧ (∀ e, e ∈ (applyOps s ops).spanish_heap → e.agent_id ≠ k) := by
  intro ops
  induction ops with
  | nil => intro s h1 h2 h3; exact ⟨h1, h2, h3⟩
  | cons o rest ih =>
    intro s h1 h2 h3
    rcases applyOp_keeps_unknown k s o h1 h2 h3 with ⟨g1, g2, g3⟩
    exact ih (applyOp s o) g1 g2 g3

/-- C10: an agent whose language names no partition (neither 'english' nor
'spanish') is updated and marked available by `release_agent` but inserted into
no queue, is inserted into no queue by `initialize_heaps`, and — starting from
heaps free of it — remains absent from both priority structures across every
sequence of dispatcher operations, so no subsequent `get_best_agent` can ever
return it. -/
theorem unknown_language_agent_not_served (s : SysState) (k : ℕ) (ops : List Op)
    (hag : ∀ a, a ∈ s.agents → a.id = k → a.language ≠ "english" ∧ a.language ≠ "spanish")
    (he : ∀ e, e ∈ s.english_heap → e.agent_id ≠ k)
    (hs : ∀ e, e ∈ s.spanish_heap → e.agent_id ≠ k) :
    (∀ e, e ∈ (applyOps s ops).english_heap → e.agent_id ≠ k)
    ∧ (∀ e, e ∈ (applyOps s ops).spanish_heap → e.agent_id ≠ k)
    ∧ (∀ language ph, (get_best_agent (applyOps s ops) language).1 ≠ some (k, ph))
    ∧ (∀ a d now2, findAgentById s.agents k = some a →
        release_agent s k d now2
          = { s with busy_agents := busyDel s.busy_agents k,
                     agents := updFirst s.agents k (fun _ => releasedAgent a d now2) })
    ∧ (∀ e, e ∈ buildHeap "english" s.agents → e.agent_id ≠ k)
    ∧ (∀ e, e ∈ buildHeap "spanish" s.agents → e.agent_id ≠ k) := by
  rcases applyOps_keeps_unknown k ops s hag he hs with ⟨g1, g2, g3⟩
  refine ⟨g2, g3, ?_, ?_,
    buildHeap_no_unknown k "english" s.agents (fun a ha hk => (hag a ha hk).1),
    buildHeap_no_unknown k "spanish" s.agents (fun a ha hk => (hag a ha hk).2)⟩
  · intro language ph hsome
    rcases get_best_agent_result_in_heap _ language k ph hsome
      with ⟨e, he2, hek⟩ | ⟨e, he2, hek⟩
    · exact g2 e he2 hek
    · exact g3 e he2 hek
  · intro a d now2 hfa
    rcases findAgentById_mem s.agents k a hfa with ⟨hmem, hid⟩
    rcases hag a hmem hid with ⟨hne, hns⟩
    have hlangrel : (releasedAgent a d now2).language = a.language := rfl
    have h1 : ((releasedAgent a d now2).language == "english") = false := by
      rw [hlangrel]
      simpa using hne
    have h2 : ((releasedAgent a d now2).language == "spanish") = false := by
      rw [hlangrel]
      simpa using hns
    simp [release_agent, hfa, h1, h2]

/-- C10 witness: a French agent alongside an English one, over a rebuild
followed by a selection. -/
theorem unknown_language_agent_not_served_witness :
    (∀ e, e ∈ (applyOps frenchSys [Op.rebuild, Op.select "english"]).english_heap →
      e.agent_id ≠ 7)
    ∧ (∀ e, e ∈ (applyOps frenchSys [Op.rebuild, Op.select "english"]).spanish_heap →
      e.agent_id ≠ 7)
    ∧ ((get_best_agent (applyOps frenchSys [Op.rebuild, Op.select "english"]) "english").1
      ≠ some (7, "f1"))
    ∧ (∀ e, e ∈ buildHeap "english" frenchSys.agents → e.agent_id ≠ 7) := by
  have h := unknown_language_agent_not_served frenchSys 7 [Op.rebuild, Op.select "english"]
    (by decide) (by decide) (by decide)
  exact ⟨h.1, h.2.1, h.2.2.1 "english" "f1", h.2.2.2.2.1⟩
